import Mathlib

set_option maxHeartbeats 1000000

namespace PortID

/-!
Shallow embedding of the PortID JavaScript SDK
(`src/portid-js-sdk/src/encryption.js` and the `PortID` class of
`src/portid-js-sdk/README.md`).

Payloads handed to `encryptData` / returned by `decryptData` are
JSON-serializable values.  We model them with `JValue` (numbers restricted
to integers, the exactly-representable fragment), together with models of
the platform builtins `JSON.stringify` / `JSON.parse` on that fragment.
-/

/-- JSON-like values: the JSON-serializable payloads of the SDK, with
numbers restricted to integer values. -/
inductive JValue where
  | null : JValue
  | bool (b : Bool) : JValue
  | num (n : Int) : JValue
  | str (s : String) : JValue
  | arr (elems : List JValue) : JValue
  | obj (fields : List (String × JValue)) : JValue

/-- The decimal digit characters. -/
def digitChar (d : Nat) : Char :=
  match d with
  | 0 => '0' | 1 => '1' | 2 => '2' | 3 => '3' | 4 => '4'
  | 5 => '5' | 6 => '6' | 7 => '7' | 8 => '8' | _ => '9'

/-- Decimal digit test (used by the parser model of `JSON.parse`). -/
def isDigitChar (c : Char) : Bool :=
  decide (c ∈ ("0123456789").data)

/-- Numeric value of a decimal digit character. -/
def digitVal (c : Char) : Nat := c.toNat - 48

/-- Decimal representation of a natural number, big-endian. -/
def natChars (n : Nat) : List Char :=
  if n = 0 then ("0").data
  else ((Nat.digits 10 n).map digitChar).reverse

/-- Decimal representation of an integer (model of `JSON.stringify` on an
integer-valued JS number). -/
def intChars : Int → List Char
  | Int.ofNat n => natChars n
  | Int.negSucc m => '-' :: natChars (m + 1)

/-- JSON string escaping of one character (quote and backslash). -/
def escChar (c : Char) : List Char :=
  if c = '"' ∨ c = '\\' then ['\\', c] else [c]

/-- JSON string escaping. -/
def escStr : List Char → List Char
  | [] => []
  | c :: cs => escChar c ++ escStr cs

mutual

/-- Model of `JSON.stringify` producing a character list. -/
def sChars : JValue → List Char
  | .null => ("null").data
  | .bool true => ("true").data
  | .bool false => ("false").data
  | .num i => intChars i
  | .str s => '"' :: (escStr s.data ++ ['"'])
  | .arr [] => ['[', ']']
  | .arr (x :: xs) => '[' :: (sElems x xs ++ [']'])
  | .obj [] => ['{', '}']
  | .obj (f :: fs) => '{' :: (sFields f fs ++ ['}'])
termination_by v => sizeOf v

/-- Comma-separated serialization of a non-empty list of array elements. -/
def sElems : JValue → List JValue → List Char
  | x, [] => sChars x
  | x, y :: ys => sChars x ++ ',' :: sElems y ys
termination_by x xs => sizeOf x + sizeOf xs

/-- Comma-separated serialization of a non-empty list of object fields. -/
def sFields : (String × JValue) → List (String × JValue) → List Char
  | (k, v), [] => '"' :: escStr k.data ++ '"' :: ':' :: sChars v
  | (k, v), f :: fs =>
      ('"' :: escStr k.data ++ '"' :: ':' :: sChars v) ++ ',' :: sFields f fs
termination_by f fs => sizeOf f + sizeOf fs

end

/-- Model of the platform builtin `JSON.stringify`. -/
def jsonStringify (v : JValue) : String := ⟨sChars v⟩

/-- Parse the body of a JSON string after the opening quote, undoing
`escStr`; returns the decoded characters and the rest after the closing
quote. -/
def parseStrChars : List Char → Option (List Char × List Char)
  | [] => none
  | c :: cs =>
    if c = '\\' then
      match cs with
      | c2 :: cs2 => (parseStrChars cs2).map (fun p => (c2 :: p.1, p.2))
      | [] => none
    else if c = '"' then some ([], cs)
    else (parseStrChars cs).map (fun p => (c :: p.1, p.2))

/-- Big-endian decimal accumulation. -/
def digitsToNat (ds : List Char) : Nat :=
  ds.foldl (fun a c => 10 * a + digitVal c) 0

/-- Parse a maximal run of decimal digits. -/
def parseNatChars (cs : List Char) : Option (Nat × List Char) :=
  let ds := cs.takeWhile isDigitChar
  if ds.isEmpty then none
  else some (digitsToNat ds, cs.dropWhile isDigitChar)

/-- True when the list does not begin with a decimal digit. -/
def headNotDigit : List Char → Bool
  | [] => true
  | c :: _ => !isDigitChar c

mutual

/-- Fuel-indexed model of `JSON.parse` on one value; returns the value and
the unconsumed rest. -/
def parseV : Nat → List Char → Option (JValue × List Char)
  | 0, _ => none
  | _ + 1, [] => none
  | fuel + 1, c :: cs =>
    if isDigitChar c then
      (parseNatChars (c :: cs)).map (fun p => (.num (Int.ofNat p.1), p.2))
    else if c = '-' then
      (parseNatChars cs).map (fun p => (.num (-(Int.ofNat p.1)), p.2))
    else if c = 'n' then
      match cs with
      | 'u' :: 'l' :: 'l' :: r => some (.null, r)
      | _ => none
    else if c = 't' then
      match cs with
      | 'r' :: 'u' :: 'e' :: r => some (.bool true, r)
      | _ => none
    else if c = 'f' then
      match cs with
      | 'a' :: 'l' :: 's' :: 'e' :: r => some (.bool false, r)
      | _ => none
    else if c = '"' then
      (parseStrChars cs).map (fun p => (.str ⟨p.1⟩, p.2))
    else if c = '[' then
      if cs.head? = some ']' then some (.arr [], cs.tail)
      else (parseElems fuel cs).map (fun p => (.arr p.1, p.2))
    else if c = '{' then
      if cs.head? = some '}' then some (.obj [], cs.tail)
      else (parseFields fuel cs).map (fun p => (.obj p.1, p.2))
    else none

/-- Parse a non-empty comma-separated element list up to the closing
bracket. -/
def parseElems : Nat → List Char → Option (List JValue × List Char)
  | 0, _ => none
  | fuel + 1, cs =>
    match parseV fuel cs with
    | none => none
    | some (v, r) =>
      match r with
      | ',' :: r2 => (parseElems fuel r2).map (fun p => (v :: p.1, p.2))
      | ']' :: r2 => some ([v], r2)
      | _ => none

/-- Parse a non-empty comma-separated field list up to the closing
brace. -/
def parseFields : Nat → List Char → Option (List (String × JValue) × List Char)
  | 0, _ => none
  | fuel + 1, cs =>
    match cs with
    | '"' :: cs1 =>
      match parseStrChars cs1 with
      | some (k, r0) =>
        match r0 with
        | ':' :: r1 =>
          match parseV fuel r1 with
          | some (v, ',' :: r2) =>
              (parseFields fuel r2).map (fun p => ((⟨k⟩, v) :: p.1, p.2))
          | some (v, '}' :: r2) => some ([(⟨k⟩, v)], r2)
          | _ => none
        | _ => none
      | none => none
    | _ => none

end

/-- Model of the platform builtin `JSON.parse`: fails (returns `none`,
standing for a thrown `SyntaxError`) unless the whole input is one JSON
value. -/
def jsonParse (s : String) : Option JValue :=
  match parseV (s.data.length + 1) s.data with
  | some (v, []) => some v
  | _ => none

/-!
Crypto module, from `src/portid-js-sdk/src/encryption.js`.

The CryptoJS primitives (`CryptoJS.AES`, `CryptoJS.SHA256`,
`CryptoJS.lib.WordArray.random`) are external library calls; they are
modelled at their contract: AES passphrase encryption as an ideal cipher
whose decryption under any other passphrase fails to decode
(CryptoJS throws `Malformed UTF-8 data` / yields an empty string there,
which `decryptData` catches — the source's own comment: "This will fail
if the key is incorrect, which is a valid check"), SHA-256 as an
injective digest, and the CSPRNG as a counter-indexed draw.
-/

/-- The opaque string `CryptoJS.AES.encrypt(msg, passphrase).toString()`:
an OpenSSL-format ciphertext.  `key` is the passphrase the blob was
encrypted under, `msg` the UTF-8 plaintext; both are unreadable without
the passphrase in the real primitive. -/
structure AESCt where
  key : String
  msg : String
deriving DecidableEq, Repr

/-- Ideal-cipher model of `CryptoJS.AES.decrypt(ct, passphrase)` followed
by `.toString(CryptoJS.enc.Utf8)`: the plaintext under the right
passphrase, a decode failure (`none`) otherwise. -/
def aesDecryptUtf8 (ct : AESCt) (passphrase : String) : Option String :=
  if ct.key = passphrase then some ct.msg else none

/-- Model of `CryptoJS.SHA256(password).toString()` as an injective
digest. -/
def hashPassword (password : String) : String := "sha256:" ++ password

/-- Model of `CryptoJS.lib.WordArray.random(16).toString()`: the `k`-th
draw from the CSPRNG, indexed by a counter threaded through the SDK
state. -/
def generateRecoveryKey (k : Nat) : String := "rk" ++ toString k

/-- Function `encryptData` from `src/encryption.js`: stringify then AES-encrypt
under the secret key. -/
def encryptData (data : JValue) (secretKey : String) : AESCt :=
  AESCt.mk secretKey (jsonStringify data)

/-- Function `decryptData` from `src/encryption.js`: AES-decrypt, return `null`
(modelled `none`) when decoding throws or yields an empty string, else
`JSON.parse` the plaintext (a parse throw is also caught to `null`). -/
def decryptData (encryptedData : AESCt) (secretKey : String) : Option JValue :=
  match aesDecryptUtf8 encryptedData secretKey with
  | none => none
  | some decryptedString =>
    if decryptedString = "" then none
    else jsonParse decryptedString

/-!
Local credential store: the Dexie table
`users: "&username, hashedPassword, recoveryKey, backupHash"` of the
`PortID` class, modelled as an association list keyed by the unique
`username`.
-/

/-- One row of the `users` table.  `hashedPassword` is `Option` because
`restoreData` writes `hashedPassword: null`. -/
structure LocalUser where
  username : String
  hashedPassword : Option String
  recoveryKey : String
  backupHash : String
deriving DecidableEq, Repr

/-- Operation `db.users.get(username)`. -/
def dbGet (users : List LocalUser) (username : String) : Option LocalUser :=
  users.find? (fun r => r.username == username)

/-- Operation `db.users.put(record)`: upsert by primary key. -/
def dbPut (users : List LocalUser) (r : LocalUser) : List LocalUser :=
  if (dbGet users r.username).isSome then
    users.map (fun x => if x.username == r.username then r else x)
  else users ++ [r]

/-- Operation `db.users.add(record)`: insert (callers guard against duplicates
first, so the duplicate-key rejection is never reached). -/
def dbAdd (users : List LocalUser) (r : LocalUser) : List LocalUser :=
  users ++ [r]

/-- Operation `db.users.update(username, ...)` on the pointer field. -/
def dbUpdate (users : List LocalUser) (username hash : String) : List LocalUser :=
  users.map (fun x =>
    if x.username == username then { x with backupHash := hash } else x)

/-!
Remote sync server.

Modelled from the spec: the PortID Sync Server behind `/api/set-hash`,
`/api/get-hash`, `/api/backup` and `/api/restore` is code of this
repository that is not under `src/`; its endpoints are modelled from
spec section 6 — directory `setPointer`/`getPointer` with upsert
semantics keyed by `(appId, username)`, and content-addressed storage
`store`/`fetch`, the restore response carrying the stored ciphertext in
the `kaironBackup` field the client reads.
-/

/-- Remote state: the directory (Postgres) and the content-addressed
blob store (IPFS). -/
structure Remote where
  directory : List ((String × String) × String)
  storage : List (String × AESCt)
deriving DecidableEq, Repr

/-- Content address of a ciphertext blob (injective model of an IPFS
hash of the blob's bytes). -/
def ipfsHashOf (ct : AESCt) : String := "Qm" ++ ct.key ++ ":" ++ ct.msg

/-- Modelled from the spec: directory `setPointer` (upsert; the newest
entry shadows older ones). -/
def srvSetHash (r : Remote) (appId username hash : String) : Remote :=
  { r with directory := ((appId, username), hash) :: r.directory }

/-- Modelled from the spec: directory `getPointer`. -/
def srvGetHash (r : Remote) (appId username : String) : Option String :=
  (r.directory.find? (fun e => e.1.1 == appId && e.1.2 == username)).map (·.2)

/-- Modelled from the spec: storage `store`, returning the content
pointer. -/
def srvBackup (r : Remote) (ct : AESCt) : Remote × String :=
  ({ r with storage := (ipfsHashOf ct, ct) :: r.storage }, ipfsHashOf ct)

/-- Shape of the `/api/restore` response the client destructures
(`restoreResponse.kaironBackup || restoreResponse.pinataContent?.kaironBackup`). -/
structure PinataContent where
  kaironBackup : Option AESCt
deriving DecidableEq, Repr

/-- Response of `/api/restore`. -/
structure RestoreResp where
  kaironBackup : Option AESCt
  pinataContent : Option PinataContent
deriving DecidableEq, Repr

/-- Modelled from the spec: storage `fetch` by content pointer; `none`
when the pointer addresses nothing (the server answers non-ok and the
client's `_request` throws). -/
def srvRestore (r : Remote) (hash : String) : Option RestoreResp :=
  (r.storage.find? (fun e => e.1 == hash)).map
    (fun e => RestoreResp.mk (some e.2) none)

/-- The client's extraction
`restoreResponse.kaironBackup || restoreResponse.pinataContent?.kaironBackup`. -/
def extractBlob (resp : RestoreResp) : Option AESCt :=
  match resp.kaironBackup with
  | some b => some b
  | none =>
    match resp.pinataContent with
    | some pc => pc.kaironBackup
    | none => none

/-!
The `PortID` orchestrator class.  Its instance state (`appId`, the Dexie
`users` table, `currentUser`), the remote service state, the CSPRNG
counter, and a schedule of network outcomes (one `Bool` per `_request`;
an exhausted schedule means requests succeed) form the `World` on which
`signUp` / `login` / `logout` / `backupData` / `restoreData` act.  Each
fallible operation also returns the list of externally visible events
(network requests attempted and local-store writes) in program order.
-/

/-- The whole mutable state an operation can touch. -/
structure World where
  appId : String
  users : List LocalUser
  currentUser : Option String
  rng : Nat
  remote : Remote
  sched : List Bool
deriving DecidableEq, Repr

/-- Pop the next network outcome (`true` = the `fetch` of `_request`
reaches the server and the response is ok). -/
def takeSched : List Bool → Bool × List Bool
  | [] => (true, [])
  | b :: r => (b, r)

/-- Externally visible events of one operation, in program order. -/
inductive Event where
  | reqSetHash (appId username hash : String) : Event
  | reqBackup (username : String) (ct : AESCt) : Event
  | reqGetHash (appId username : String) : Event
  | reqRestore (hash : String) : Event
  | locAdd (r : LocalUser) : Event
  | locPut (r : LocalUser) : Event
  | locUpdate (username hash : String) : Event
deriving DecidableEq, Repr

/-- The distinct failure modes of the SDK: one constructor per `throw
new PortIDError(...)` site reachable from the modelled operations (the
source has a single `PortIDError` class distinguished by message). -/
inductive SdkError where
  /-- Message "Username and password are required." -/
  | missingFields : SdkError
  /-- Message "Username already exists locally." -/
  | duplicateUser : SdkError
  /-- Message of `_request`: "Network or API error: ..." (also wraps "API Error:
  ..." responses). -/
  | networkError : SdkError
  /-- Message "... did not return a valid IPFS hash." -/
  | backupNoHash : SdkError
  /-- Message "User is not logged in. Please call login() first." -/
  | notLoggedIn : SdkError
  /-- Message "Could not find user credentials locally." -/
  | noLocalCredentials : SdkError
  /-- Message "Could not find a backup hash for this user." -/
  | noBackupFound : SdkError
  /-- Message "Backup data blob is in an unexpected format." -/
  | badBlobFormat : SdkError
  /-- Message "Decryption failed. The Recovery Key is likely incorrect." -/
  | invalidRecoveryKey : SdkError
deriving DecidableEq, Repr

/-- Result of one orchestrator operation. -/
structure Out (α : Type) where
  res : Except SdkError α
  world : World
  evs : List Event

/-- The initial payload `{ sdk_version: "1.0.0" }` committed by
`signUp`. -/
def initialData : JValue := JValue.obj [("sdk_version", JValue.str "1.0.0")]

/-- The placeholder pointer `signUp` registers before the first
backup. -/
def placeholderHash : String := "pending_first_backup"

/-- Method `PortID.signUp(username, password)`. -/
def signUp (w : World) (username password : String) : Out String :=
  if username = "" ∨ password = "" then Out.mk (.error .missingFields) w []
  else
    match dbGet w.users username with
    | some _ => Out.mk (.error .duplicateUser) w []
    | none =>
      let recoveryKey := generateRecoveryKey w.rng
      let hashedPassword := hashPassword password
      let w0 : World := { w with rng := w.rng + 1 }
      let t1 := takeSched w0.sched
      let ev1 : List Event := [.reqSetHash w.appId username placeholderHash]
      if t1.1 then
        let w1 : World := { w0 with
          remote := srvSetHash w0.remote w.appId username placeholderHash,
          sched := t1.2 }
        let encryptedData := encryptData initialData recoveryKey
        let t2 := takeSched w1.sched
        let ev2 : List Event := ev1 ++ [.reqBackup username encryptedData]
        if t2.1 then
          let br := srvBackup w1.remote encryptedData
          let ipfsHash := br.2
          let w2 : World := { w1 with remote := br.1, sched := t2.2 }
          if ipfsHash = "" then Out.mk (.error .backupNoHash) w2 ev2
          else
            let t3 := takeSched w2.sched
            let ev3 : List Event := ev2 ++ [.reqSetHash w.appId username ipfsHash]
            if t3.1 then
              let w3 : World := { w2 with
                remote := srvSetHash w2.remote w.appId username ipfsHash,
                sched := t3.2 }
              let credentials : LocalUser :=
                LocalUser.mk username (some hashedPassword) recoveryKey ipfsHash
              let w4 : World := { w3 with users := dbAdd w3.users credentials }
              Out.mk (.ok recoveryKey) w4 (ev3 ++ [.locAdd credentials])
            else Out.mk (.error .networkError) { w2 with sched := t3.2 } ev3
        else Out.mk (.error .networkError) { w1 with sched := t2.2 } ev2
      else Out.mk (.error .networkError) { w0 with sched := t1.2 } ev1

/-- Method `PortID.login(username, password)`: pure local check
(`user && user.hashedPassword === hashedPassword`), sets
`currentUser` on success. -/
def login (w : World) (username password : String) : Bool × World :=
  match dbGet w.users username with
  | some user =>
    if user.hashedPassword = some (hashPassword password) then
      (true, { w with currentUser := some username })
    else (false, w)
  | none => (false, w)

/-- Method `PortID.logout()`. -/
def logout (w : World) : World := { w with currentUser := none }

/-- Method `PortID.backupData(data)`. -/
def backupData (w : World) (data : JValue) : Out String :=
  match w.currentUser with
  | none => Out.mk (.error .notLoggedIn) w []
  | some cu =>
    match dbGet w.users cu with
    | none => Out.mk (.error .noLocalCredentials) w []
    | some user =>
      let encryptedData := encryptData data user.recoveryKey
      let t1 := takeSched w.sched
      let ev1 : List Event := [.reqBackup cu encryptedData]
      if t1.1 then
        let br := srvBackup w.remote encryptedData
        let ipfsHash := br.2
        let w1 : World := { w with remote := br.1, sched := t1.2 }
        if ipfsHash = "" then Out.mk (.error .backupNoHash) w1 ev1
        else
          let t2 := takeSched w1.sched
          let ev2 : List Event := ev1 ++ [.reqSetHash w.appId cu ipfsHash]
          if t2.1 then
            let w2 : World := { w1 with
              remote := srvSetHash w1.remote w.appId cu ipfsHash,
              sched := t2.2 }
            let w3 : World := { w2 with users := dbUpdate w2.users cu ipfsHash }
            Out.mk (.ok ipfsHash) w3 (ev2 ++ [.locUpdate cu ipfsHash])
          else Out.mk (.error .networkError) { w1 with sched := t2.2 } ev2
      else Out.mk (.error .networkError) { w with sched := t1.2 } ev1

/-- Method `PortID.restoreData(username, recoveryKey)`. -/
def restoreData (w : World) (username recoveryKey : String) : Out JValue :=
  let t1 := takeSched w.sched
  let ev1 : List Event := [.reqGetHash w.appId username]
  let w1 : World := { w with sched := t1.2 }
  if t1.1 then
    match srvGetHash w1.remote w.appId username with
    | none => Out.mk (.error .noBackupFound) w1 ev1
    | some ipfsHash =>
      if ipfsHash = "" then Out.mk (.error .noBackupFound) w1 ev1
      else
        let t2 := takeSched w1.sched
        let ev2 : List Event := ev1 ++ [.reqRestore ipfsHash]
        let w2 : World := { w1 with sched := t2.2 }
        if t2.1 then
          match srvRestore w2.remote ipfsHash with
          | none => Out.mk (.error .networkError) w2 ev2
          | some restoreResponse =>
            match extractBlob restoreResponse with
            | none => Out.mk (.error .badBlobFormat) w2 ev2
            | some encryptedDataBlob =>
              match decryptData encryptedDataBlob recoveryKey with
              | none => Out.mk (.error .invalidRecoveryKey) w2 ev2
              | some decryptedData =>
                let rec0 : LocalUser := LocalUser.mk username none recoveryKey ipfsHash
                let w3 : World := { w2 with users := dbPut w2.users rec0 }
                Out.mk (.ok decryptedData) w3 (ev2 ++ [.locPut rec0])
        else Out.mk (.error .networkError) w2 ev2
  else Out.mk (.error .networkError) w1 ev1

/-!
Concrete states used to exercise the operations, and a predicate used in
the parser correctness proof.
-/

/-- The characters that can begin the serialization of a `JValue`. -/
def starterOk (c : Char) : Prop :=
  isDigitChar c = true ∨ c = '-' ∨ c = 'n' ∨ c = 't' ∨ c = 'f' ∨
    c = '"' ∨ c = '[' ∨ c = '{'

/-- A fresh SDK instance: empty local store, no session, empty remote
service, all requests succeeding. -/
def w0Empty : World :=
  World.mk "app" [] none 0 (Remote.mk [] []) []

/-- A state whose local store already has a record for `"alice"` and
whose session belongs to `"carol"`. -/
def wAlice : World :=
  World.mk "app"
    [LocalUser.mk "alice" (some (hashPassword "pw1")) "rkA" "h1"]
    (some "carol") 1 (Remote.mk [] []) []

/-- A sample payload. -/
def samplePayload : JValue := JValue.obj [("note", JValue.str "hi")]

/-- A stored ciphertext blob under the recovery key `"key1"` whose
plaintext is the JSON text of `samplePayload`. -/
def ctSample : AESCt := AESCt.mk "key1" "\x7b\"note\":\"hi\"\x7d"

/-- A state where the remote directory and storage hold a backup for
`"alice"`, and all requests succeed. -/
def wBackedUp : World :=
  World.mk "app" [] none 0
    (Remote.mk [(("app", "alice"), ipfsHashOf ctSample)]
      [(ipfsHashOf ctSample, ctSample)]) []

/-- A state where the directory has a pointer for `"alice"` but the next
network request fails. -/
def wDirDown : World :=
  World.mk "app" [] none 0
    (Remote.mk [(("app", "alice"), "QmX")] []) [false]

/-!
Correctness of the `JSON.parse` / `JSON.stringify` model: parsing a
serialized value recovers it.
-/

theorem isDigitChar_digitChar (d : Nat) (hd : d < 10) :
    isDigitChar (digitChar d) = true := by
  interval_cases d <;> decide

theorem digitVal_digitChar (d : Nat) (hd : d < 10) :
    digitVal (digitChar d) = d := by
  interval_cases d <;> decide

theorem natChars_ne_nil (n : Nat) : natChars n ≠ [] := by
  rw [natChars]
  split
  · simp
  · simp [Nat.digits_ne_nil_iff_ne_zero, *]

theorem natChars_all_digits (n : Nat) :
    ∀ c ∈ natChars n, isDigitChar c = true := by
  intro c hc
  rw [natChars] at hc
  split at hc
  · simp at hc
    subst hc
    decide
  · simp only [List.mem_reverse, List.mem_map] at hc
    obtain ⟨d, hd, rfl⟩ := hc
    exact isDigitChar_digitChar d (Nat.digits_lt_base (by norm_num) hd)

theorem takeWhile_append_all {α : Type} (p : α → Bool) (l rest : List α)
    (h1 : ∀ c ∈ l, p c = true)
    (h2 : ∀ c, rest.head? = some c → p c = false) :
    (l ++ rest).takeWhile p = l ∧ (l ++ rest).dropWhile p = rest := by
  induction l with
  | nil =>
    cases rest with
    | nil => exact ⟨rfl, rfl⟩
    | cons c r =>
      have hc : p c = false := h2 c rfl
      simp [List.takeWhile_cons, List.dropWhile_cons, hc]
  | cons a l ih =>
    have ha : p a = true := h1 a (List.mem_cons_self a l)
    have hrec := ih (fun c hc => h1 c (List.mem_cons_of_mem a hc))
    simp [List.takeWhile_cons, List.dropWhile_cons, ha, hrec.1, hrec.2]

theorem foldr_digits_ofDigits (L : List Nat) (hL : ∀ d ∈ L, d < 10) :
    L.foldr (fun d a => 10 * a + digitVal (digitChar d)) 0 =
      Nat.ofDigits 10 L := by
  induction L with
  | nil => simp [Nat.ofDigits]
  | cons d L ih =>
    have hd : d < 10 := hL d (List.mem_cons_self d L)
    have hrec := ih (fun x hx => hL x (List.mem_cons_of_mem d hx))
    simp only [List.foldr_cons, hrec, Nat.ofDigits_cons,
      digitVal_digitChar d hd]
    ring

theorem digitsToNat_natChars (n : Nat) : digitsToNat (natChars n) = n := by
  by_cases h : n = 0
  · subst h
    decide
  · rw [natChars, if_neg h, digitsToNat, List.foldl_reverse, List.foldr_map]
    have := foldr_digits_ofDigits (Nat.digits 10 n)
      (fun d hd => Nat.digits_lt_base (by norm_num) hd)
    simpa [this] using Nat.ofDigits_digits 10 n

theorem parseNat_natChars (n : Nat) (rest : List Char)
    (hrest : headNotDigit rest = true) :
    parseNatChars (natChars n ++ rest) = some (n, rest) := by
  have hr : ∀ c, rest.head? = some c → isDigitChar c = false := by
    intro c hc
    cases rest with
    | nil => simp at hc
    | cons a r =>
      simp only [List.head?_cons, Option.some.injEq] at hc
      subst hc
      simpa [headNotDigit] using hrest
  obtain ⟨ht, hd⟩ :=
    takeWhile_append_all isDigitChar (natChars n) rest
      (natChars_all_digits n) hr
  rw [parseNatChars]
  simp only [ht, hd]
  rw [if_neg (by simpa [List.isEmpty_iff] using natChars_ne_nil n)]
  rw [digitsToNat_natChars]

theorem parseStr_round (s : List Char) (rest : List Char) :
    parseStrChars (escStr s ++ '"' :: rest) = some (s, rest) := by
  induction s with
  | nil =>
    show parseStrChars ('"' :: rest) = some ([], rest)
    rw [parseStrChars.eq_def]
    simp
  | cons c s ih =>
    by_cases hc : c = '"' ∨ c = '\\'
    · have he : escStr (c :: s) = '\\' :: c :: escStr s := by
        simp [escStr, escChar, hc]
      rw [he]
      simp [parseStrChars, ih]
    · have he : escStr (c :: s) = c :: escStr s := by
        simp [escStr, escChar, hc]
      have h1 : ¬(c = '\\') := fun h => hc (Or.inr h)
      have h2 : ¬(c = '"') := fun h => hc (Or.inl h)
      rw [he, List.cons_append, parseStrChars.eq_def]
      simp [h1, h2, ih]

theorem sChars_starter (v : JValue) :
    ∃ c t, sChars v = c :: t ∧ starterOk c := by
  cases v with
  | null => exact ⟨'n', ['u', 'l', 'l'], by simp [sChars], by unfold starterOk; decide⟩
  | bool b =>
    cases b with
    | false => exact ⟨'f', ['a', 'l', 's', 'e'], by simp [sChars], by unfold starterOk; decide⟩
    | true => exact ⟨'t', ['r', 'u', 'e'], by simp [sChars], by unfold starterOk; decide⟩
  | num i =>
    cases i with
    | ofNat n =>
      obtain ⟨c, t, hct⟩ : ∃ c t, natChars n = c :: t := by
        cases hn : natChars n with
        | nil => exact absurd hn (natChars_ne_nil n)
        | cons c t => exact ⟨c, t, rfl⟩
      refine ⟨c, t, by simp [sChars, intChars, hct], Or.inl ?_⟩
      exact natChars_all_digits n c (hct ▸ List.mem_cons_self c t)
    | negSucc m =>
      exact ⟨'-', natChars (m + 1), by simp [sChars, intChars], by unfold starterOk; decide⟩
  | str s =>
    exact ⟨'"', escStr s.data ++ ['"'], by simp [sChars], by unfold starterOk; decide⟩
  | arr xs =>
    cases xs with
    | nil => exact ⟨'[', [']'], by simp [sChars], by unfold starterOk; decide⟩
    | cons x xs =>
      exact ⟨'[', sElems x xs ++ [']'], by simp [sChars], by unfold starterOk; decide⟩
  | obj fs =>
    cases fs with
    | nil => exact ⟨'{', ['}'], by simp [sChars], by unfold starterOk; decide⟩
    | cons f fs =>
      exact ⟨'{', sFields f fs ++ ['}'], by simp [sChars], by unfold starterOk; decide⟩

theorem starterOk_ne (c : Char) (h : starterOk c) : c ≠ ']' ∧ c ≠ '}' := by
  rcases h with h | h | h | h | h | h | h | h
  · rw [isDigitChar] at h
    exact (by decide : ∀ x ∈ ("0123456789").data, x ≠ ']' ∧ x ≠ '}') c
      (of_decide_eq_true h)
  all_goals (subst h; exact ⟨by decide, by decide⟩)

theorem sElems_head (x : JValue) (xs : List JValue) :
    ∃ u, sElems x xs = sChars x ++ u := by
  cases xs with
  | nil => exact ⟨[], by simp [sElems]⟩
  | cons y ys => exact ⟨',' :: sElems y ys, by simp [sElems]⟩

theorem sFields_head (f : String × JValue) (fs : List (String × JValue)) :
    ∃ u, sFields f fs = '"' :: u := by
  obtain ⟨k, v⟩ := f
  cases fs with
  | nil => exact ⟨escStr k.data ++ '"' :: ':' :: sChars v, by simp [sFields]⟩
  | cons g gs =>
    exact ⟨(escStr k.data ++ '"' :: ':' :: sChars v) ++ ',' :: sFields g gs,
      by simp [sFields]⟩

theorem parse_round (fuel : Nat) :
    (∀ v rest, (sChars v).length ≤ fuel → headNotDigit rest = true →
      parseV fuel (sChars v ++ rest) = some (v, rest)) ∧
    (∀ x xs rest, (sElems x xs).length + 1 ≤ fuel →
      parseElems fuel (sElems x xs ++ ']' :: rest) = some (x :: xs, rest)) ∧
    (∀ f fs rest, (sFields f fs).length + 1 ≤ fuel →
      parseFields fuel (sFields f fs ++ '}' :: rest) = some (f :: fs, rest)) := by
  induction fuel with
  | zero =>
    refine ⟨?_, ?_, ?_⟩
    · intro v rest hlen _
      obtain ⟨c, t, hct, _⟩ := sChars_starter v
      rw [hct] at hlen
      simp at hlen
    · intro x xs rest hlen
      exact absurd hlen (by omega)
    · intro f fs rest hlen
      exact absurd hlen (by omega)
  | succ fuel ih =>
    obtain ⟨ihV, ihE, ihF⟩ := ih
    refine ⟨?_, ?_, ?_⟩
    · intro v rest hlen hrest
      cases v with
      | null =>
        simp only [sChars, List.cons_append, List.nil_append]
        rfl
      | bool b =>
        cases b with
        | false =>
          simp only [sChars, List.cons_append, List.nil_append]
          rfl
        | true =>
          simp only [sChars, List.cons_append, List.nil_append]
          rfl
      | num i =>
        cases i with
        | ofNat n =>
          obtain ⟨c, t, hct⟩ : ∃ c t, natChars n = c :: t := by
            cases hn : natChars n with
            | nil => exact absurd hn (natChars_ne_nil n)
            | cons c t => exact ⟨c, t, rfl⟩
          have hd : isDigitChar c = true :=
            natChars_all_digits n c (hct ▸ List.mem_cons_self c t)
          have hpn : parseNatChars (c :: (t ++ rest)) = some (n, rest) := by
            rw [← List.cons_append, ← hct]
            exact parseNat_natChars n rest hrest
          simp only [sChars, intChars]
          rw [hct, List.cons_append, parseV.eq_def]
          simp [hd, hpn]
        | negSucc m =>
          simp only [sChars, intChars]
          rw [List.cons_append, parseV.eq_def]
          simp [show isDigitChar '-' = false from rfl,
            parseNat_natChars (m + 1) rest hrest, Int.negSucc_eq]
      | str s =>
        simp only [sChars, List.cons_append, List.append_assoc,
          List.singleton_append]
        rw [parseV.eq_def]
        simp [show isDigitChar '"' = false from rfl, parseStr_round]
      | arr xs =>
        cases xs with
        | nil =>
          simp only [sChars, List.cons_append, List.singleton_append]
          rfl
        | cons x xs =>
          obtain ⟨u, hu⟩ := sElems_head x xs
          obtain ⟨c, t, hct, hst⟩ := sChars_starter x
          have hne : c ≠ ']' := (starterOk_ne c hst).1
          have hlen2 : (sElems x xs).length + 1 ≤ fuel := by
            simp only [sChars, List.length_cons, List.length_append,
              List.length_singleton] at hlen
            omega
          have hhead : (sElems x xs).head? ≠ some ']' := by
            rw [hu, hct]
            simp [hne]
          have hnil : sElems x xs ≠ [] := by
            rw [hu, hct]
            simp
          simp only [sChars]
          rw [List.cons_append, List.append_assoc, List.singleton_append,
            parseV.eq_def]
          simp [show isDigitChar '[' = false from rfl, hhead, hnil,
            ihE x xs rest hlen2]
      | obj fs =>
        cases fs with
        | nil =>
          simp only [sChars, List.cons_append, List.singleton_append]
          rfl
        | cons f fs =>
          obtain ⟨u, hu⟩ := sFields_head f fs
          have hlen2 : (sFields f fs).length + 1 ≤ fuel := by
            simp only [sChars, List.length_cons, List.length_append,
              List.length_singleton] at hlen
            omega
          have hhead : (sFields f fs).head? ≠ some '}' := by
            rw [hu]
            simp
          have hnil : sFields f fs ≠ [] := by
            rw [hu]
            simp
          simp only [sChars]
          rw [List.cons_append, List.append_assoc, List.singleton_append,
            parseV.eq_def]
          simp [show isDigitChar '{' = false from rfl, hhead, hnil,
            ihF f fs rest hlen2]
    · intro x xs rest hlen
      cases xs with
      | nil =>
        simp only [sElems] at hlen ⊢
        rw [parseElems.eq_def]
        simp [ihV x (']' :: rest) (by omega) rfl]
      | cons y ys =>
        have hlx : (sChars x).length ≤ fuel := by
          simp only [sElems, List.length_append, List.length_cons] at hlen
          omega
        have hly : (sElems y ys).length + 1 ≤ fuel := by
          simp only [sElems, List.length_append, List.length_cons] at hlen
          omega
        simp only [sElems]
        rw [List.append_assoc, List.cons_append, parseElems.eq_def]
        simp [ihV x (',' :: (sElems y ys ++ ']' :: rest)) hlx rfl,
          ihE y ys rest hly]
    · intro f fs rest hlen
      obtain ⟨k, v⟩ := f
      obtain ⟨kd⟩ := k
      cases fs with
      | nil =>
        have hlv : (sChars v).length ≤ fuel := by
          simp only [sFields, List.length_append, List.length_cons] at hlen
          omega
        have hstr := parseStr_round kd (':' :: (sChars v ++ '}' :: rest))
        simp only [sFields]
        rw [parseFields.eq_def]
        simp only [List.cons_append, List.append_assoc]
        simp [hstr, ihV v ('}' :: rest) hlv rfl]
      | cons g gs =>
        have hlv : (sChars v).length ≤ fuel := by
          simp only [sFields, List.length_append, List.length_cons] at hlen
          omega
        have hlg : (sFields g gs).length + 1 ≤ fuel := by
          simp only [sFields, List.length_append, List.length_cons] at hlen
          omega
        have hstr := parseStr_round kd
          (':' :: (sChars v ++ (',' :: (sFields g gs ++ '}' :: rest))))
        simp only [sFields]
        rw [parseFields.eq_def]
        simp only [List.cons_append, List.append_assoc]
        simp [hstr, ihV v (',' :: (sFields g gs ++ '}' :: rest)) hlv rfl,
          ihF g gs rest hlg]

theorem jsonParse_stringify (v : JValue) :
    jsonParse (jsonStringify v) = some v := by
  have h := (parse_round ((sChars v).length + 1)).1 v [] (by omega) rfl
  rw [List.append_nil] at h
  show (match parseV ((sChars v).length + 1) (sChars v) with
    | some (v, []) => some v
    | _ => none) = some v
  rw [h]

theorem jsonStringify_ne_empty (v : JValue) : jsonStringify v ≠ "" := by
  obtain ⟨c, t, hct, _⟩ := sChars_starter v
  intro h
  have hd : sChars v = [] := congrArg String.data h
  rw [hct] at hd
  simp at hd

/-- Round-trip of the crypto module: decrypting with the key used to
encrypt recovers the payload. -/
theorem decryptData_encryptData (P : JValue) (K : String) :
    decryptData (encryptData P K) K = some P := by
  simp only [decryptData, encryptData, aesDecryptUtf8]
  simp [jsonStringify_ne_empty P, jsonParse_stringify P]

/-!
Local-store and remote-service lemmas.
-/

theorem dbGet_replace (users : List LocalUser) (r : LocalUser)
    (h : (dbGet users r.username).isSome) :
    dbGet (users.map (fun x => if x.username == r.username then r else x))
      r.username = some r := by
  induction users with
  | nil => simp [dbGet] at h
  | cons x users ih =>
    by_cases hx : (x.username == r.username) = true
    · simp only [dbGet, List.map_cons, if_pos hx]
      rw [List.find?_cons_of_pos _ (by simp)]
    · have h2 : (dbGet users r.username).isSome := by
        rw [dbGet] at h
        rw [List.find?_cons_of_neg _ (by simpa using hx)] at h
        exact h
      simp only [dbGet, List.map_cons, if_neg hx]
      rw [List.find?_cons_of_neg _ (by simpa using hx)]
      exact ih h2

theorem dbGet_dbPut_self (users : List LocalUser) (r : LocalUser) :
    dbGet (dbPut users r) r.username = some r := by
  rw [dbPut]
  split
  · exact dbGet_replace users r (by assumption)
  · rename_i hnone
    have h0 : dbGet users r.username = none := by
      cases hdg : dbGet users r.username with
      | none => rfl
      | some x => exact absurd (by simp [hdg]) hnone
    rw [dbGet, List.find?_append]
    rw [dbGet] at h0
    simp [h0]

theorem srvGetHash_srvSetHash (r : Remote) (appId username hash : String) :
    srvGetHash (srvSetHash r appId username hash) appId username =
      some hash := by
  simp [srvGetHash, srvSetHash, List.find?]

theorem ipfsHashOf_ne_empty (ct : AESCt) : ipfsHashOf ct ≠ "" := by
  intro h
  have hl := congrArg String.length h
  rw [ipfsHashOf] at h
  have : ("Qm" ++ ct.key ++ ":" ++ ct.msg).length = 0 := congrArg String.length h
  rw [String.length_append, String.length_append, String.length_append,
    show ("Qm" : String).length = 2 from rfl,
    show (":" : String).length = 1 from rfl] at this
  omega

/-!
The claims.
-/

/-- Claim C2: for every JSON-serializable payload `P` and valid key `K`,
`decryptData(encryptData(P, K), K)` returns a value equal to `P`. -/
theorem decrypt_encrypt_roundtrip (P : JValue) (K : String) :
    decryptData (encryptData P K) K = some P :=
  decryptData_encryptData P K

/-- Claim C3: decrypting `encryptData(P, K)` with any key other than `K`
yields the typed failure `null` (which `restoreData` surfaces as the
invalid-recovery-key error), never an unhandled low-level throw and never
a garbage payload passed off as a successful decryption. -/
theorem decrypt_wrong_key_fails (P : JValue) (K K2 : String) (h : K2 ≠ K) :
    decryptData (encryptData P K) K2 = none := by
  simp only [decryptData, encryptData, aesDecryptUtf8]
  rw [if_neg (fun hk => h hk.symm)]

/-- The wrong-key failure exercised at a concrete payload and concrete
distinct keys. -/
theorem decrypt_wrong_key_fails_witness :
    decryptData (encryptData samplePayload "key1") "key2" = none :=
  decrypt_wrong_key_fails samplePayload "key1" "key2" (by decide)

/-- Claim C5 counterexample: with an empty local store, `login("bob", p)`
returns the boolean `false` — there is no distinct `NoSuchLocalUser`
failure anywhere in `login`; a missing local record is indistinguishable
from a wrong password. -/
theorem login_missing_user_returns_false_cex :
    login w0Empty "bob" "anything" = (false, w0Empty) := rfl

/-- Claim C5 amended: `login(u, p)` returns `true` exactly when a local
record exists for `u` whose stored verifier equals `hashPassword(p)`; in
every other case — wrong password or no local record for `u` — it
returns the boolean `false` (never a typed error). -/
theorem login_true_iff_verifier_match (w : World) (u p : String) :
    (login w u p).1 = true ↔
      ∃ r, dbGet w.users u = some r ∧
        r.hashedPassword = some (hashPassword p) := by
  unfold login
  cases hg : dbGet w.users u with
  | none => simp
  | some r =>
    by_cases hp : r.hashedPassword = some (hashPassword p)
    · simp [hp]
    · simp [hp]

/-- Claim C10: a `login` call that does not succeed — wrong password or
no local record for the username — leaves the session's current user
unchanged. -/
theorem login_failure_preserves_session (w : World) (u p : String)
    (h : (login w u p).1 = false) :
    (login w u p).2.currentUser = w.currentUser := by
  unfold login at h ⊢
  cases hg : dbGet w.users u with
  | none => simp
  | some r =>
    rw [hg] at h
    by_cases hp : r.hashedPassword = some (hashPassword p)
    · simp [hp] at h
    · simp [hp]

/-- The failed-login frame property exercised where the session belongs
to another user: `"carol"` stays logged in after `"bob"` fails. -/
theorem login_failure_preserves_session_witness :
    (login wAlice "bob" "pw").2.currentUser = wAlice.currentUser :=
  login_failure_preserves_session wAlice "bob" "pw" rfl

/-- Claim C4 counterexample: with a record already present for
`"alice"`, `signUp("alice", "")` fails with the missing-fields error,
not `DuplicateUser` — the source checks `!username || !password` before
the duplicate check, so the claim fails for an empty password. -/
theorem signUp_duplicate_empty_password_cex :
    (signUp wAlice "alice" "").res = Except.error SdkError.missingFields ∧
      SdkError.missingFields ≠ SdkError.duplicateUser :=
  ⟨rfl, by decide⟩

/-- Claim C4 amended: for a nonempty username and password, `signUp` on a
store that already holds a record for the username fails with
`DuplicateUser`, issues no network request (no events at all), and
returns the whole state — local record, session, remote directory and
storage — exactly unchanged. -/
theorem signUp_duplicate_rejected (w : World) (u p : String)
    (hu : u ≠ "") (hp : p ≠ "") (hrec : (dbGet w.users u).isSome) :
    signUp w u p = Out.mk (Except.error SdkError.duplicateUser) w [] := by
  obtain ⟨r, hr⟩ := Option.isSome_iff_exists.mp hrec
  unfold signUp
  rw [if_neg (by simp [hu, hp]), hr]

/-- The duplicate-user rejection exercised at a concrete store that
already holds `"alice"`. -/
theorem signUp_duplicate_rejected_witness :
    signUp wAlice "alice" "pw2" =
      Out.mk (Except.error SdkError.duplicateUser) wAlice [] :=
  signUp_duplicate_rejected wAlice "alice" "pw2" (by decide) (by decide)
    (by decide)

/-- Claim C6: `backupData` attempts its mutations in the order
store-ciphertext request, directory set-pointer request, local pointer
update; the local pointer is written only when both remote steps
succeeded (last disjunct), and when the directory update fails after a
successful store the call reports the wrapped network failure and the
local record — in particular its previous pointer — is unchanged (third
disjunct). -/
theorem backupData_mutation_order (w : World) (data : JValue) :
    ((backupData w data).evs = [] ∧
      (backupData w data).world.users = w.users) ∨
    (∃ u2 ct e, (backupData w data).evs = [Event.reqBackup u2 ct] ∧
      (backupData w data).res = Except.error e ∧
      (backupData w data).world.users = w.users) ∨
    (∃ u2 ct h2, (backupData w data).evs =
        [Event.reqBackup u2 ct, Event.reqSetHash w.appId u2 h2] ∧
      (backupData w data).res = Except.error SdkError.networkError ∧
      (backupData w data).world.users = w.users) ∨
    (∃ u2 ct h2, (backupData w data).evs =
        [Event.reqBackup u2 ct, Event.reqSetHash w.appId u2 h2,
          Event.locUpdate u2 h2] ∧
      (backupData w data).res = Except.ok h2 ∧
      (backupData w data).world.users = dbUpdate w.users u2 h2) := by
  simp only [backupData]
  cases hcu : w.currentUser with
  | none => exact Or.inl ⟨rfl, rfl⟩
  | some cu =>
    dsimp only
    cases hg : dbGet w.users cu with
    | none => exact Or.inl ⟨rfl, rfl⟩
    | some user =>
      dsimp only
      cases hok1 : (takeSched w.sched).1 with
      | false =>
        exact Or.inr (Or.inl ⟨cu, encryptData data user.recoveryKey,
          SdkError.networkError, rfl, rfl, rfl⟩)
      | true =>
        dsimp only [srvBackup]
        rw [if_neg (ipfsHashOf_ne_empty (encryptData data user.recoveryKey))]
        cases hok2 : (takeSched (takeSched w.sched).2).1 with
        | false =>
          exact Or.inr (Or.inr (Or.inl
            ⟨cu, encryptData data user.recoveryKey,
              ipfsHashOf (encryptData data user.recoveryKey),
              rfl, rfl, rfl⟩))
        | true =>
          exact Or.inr (Or.inr (Or.inr
            ⟨cu, encryptData data user.recoveryKey,
              ipfsHashOf (encryptData data user.recoveryKey),
              rfl, rfl, rfl⟩))

/-- Claim C9: in every execution of `signUp`, the placeholder directory
registration precedes the initial backup store, the directory update to
the real pointer precedes the local persist, and the local record is
persisted last — the record is added (last disjunct) only when all three
remote steps succeeded, so no partial `signUp` ever leaves a local
record. -/
theorem signUp_mutation_order (w : World) (u p : String) :
    ((signUp w u p).evs = [] ∧ (signUp w u p).world.users = w.users) ∨
    ((signUp w u p).evs = [Event.reqSetHash w.appId u placeholderHash] ∧
      (signUp w u p).res = Except.error SdkError.networkError ∧
      (signUp w u p).world.users = w.users) ∨
    (∃ ct e, (signUp w u p).evs =
        [Event.reqSetHash w.appId u placeholderHash, Event.reqBackup u ct] ∧
      (signUp w u p).res = Except.error e ∧
      (signUp w u p).world.users = w.users) ∨
    (∃ ct h2, (signUp w u p).evs =
        [Event.reqSetHash w.appId u placeholderHash, Event.reqBackup u ct,
          Event.reqSetHash w.appId u h2] ∧
      (signUp w u p).res = Except.error SdkError.networkError ∧
      (signUp w u p).world.users = w.users) ∨
    (∃ ct h2 rk, (signUp w u p).evs =
        [Event.reqSetHash w.appId u placeholderHash, Event.reqBackup u ct,
          Event.reqSetHash w.appId u h2,
          Event.locAdd (LocalUser.mk u (some (hashPassword p)) rk h2)] ∧
      (signUp w u p).res = Except.ok rk ∧
      (signUp w u p).world.users =
        w.users ++ [LocalUser.mk u (some (hashPassword p)) rk h2]) := by
  simp only [signUp]
  by_cases hmf : u = "" ∨ p = ""
  · rw [if_pos hmf]
    exact Or.inl ⟨rfl, rfl⟩
  · rw [if_neg hmf]
    cases hg : dbGet w.users u with
    | some r => exact Or.inl ⟨rfl, rfl⟩
    | none =>
      dsimp only
      cases hok1 : (takeSched w.sched).1 with
      | false => exact Or.inr (Or.inl ⟨rfl, rfl, rfl⟩)
      | true =>
        dsimp only [srvBackup]
        cases hok2 : (takeSched (takeSched w.sched).2).1 with
        | false =>
          exact Or.inr (Or.inr (Or.inl
            ⟨encryptData initialData (generateRecoveryKey w.rng),
              SdkError.networkError, rfl, rfl, rfl⟩))
        | true =>
          rw [if_neg (ipfsHashOf_ne_empty
            (encryptData initialData (generateRecoveryKey w.rng)))]
          cases hok3 :
              (takeSched (takeSched (takeSched w.sched).2).2).1 with
          | false =>
            exact Or.inr (Or.inr (Or.inr (Or.inl
              ⟨encryptData initialData (generateRecoveryKey w.rng),
                ipfsHashOf (encryptData initialData
                  (generateRecoveryKey w.rng)),
                rfl, rfl, rfl⟩)))
          | true =>
            exact Or.inr (Or.inr (Or.inr (Or.inr
              ⟨encryptData initialData (generateRecoveryKey w.rng),
                ipfsHashOf (encryptData initialData
                  (generateRecoveryKey w.rng)),
                generateRecoveryKey w.rng,
                rfl, rfl, rfl⟩)))

/-- Claim C7 counterexample: with a pointer present in the directory but
the directory request itself failing at the transport level,
`restoreData` fails with the wrapped network error after only the
get-hash attempt — a failure mode that is not `NoBackupFound` (a pointer
exists), cannot be the blob-fetch failure (no fetch request was issued),
and is not `InvalidRecoveryKey`. -/
theorem restoreData_directory_outage_cex :
    (restoreData wDirDown "alice" "k").res =
        Except.error SdkError.networkError ∧
      (restoreData wDirDown "alice" "k").evs =
        [Event.reqGetHash "app" "alice"] ∧
      srvGetHash wDirDown.remote "app" "alice" = some "QmX" ∧
      SdkError.networkError ≠ SdkError.noBackupFound ∧
      SdkError.networkError ≠ SdkError.invalidRecoveryKey :=
  ⟨rfl, rfl, rfl, by decide, by decide⟩

/-- Claim C7 amended: `restoreData` fails with `noBackupFound` exactly
when the directory answers with no (or an empty) pointer, with
`invalidRecoveryKey` when the fetched blob does not decrypt under the
supplied key, and otherwise with the wrapped network error — covering a
failed directory request as well as a failed blob fetch; given the
well-formed server responses these are the only failure modes. -/
theorem restoreData_failure_modes (w : World) (u k : String) :
    (∃ d, (restoreData w u k).res = Except.ok d) ∨
    ((restoreData w u k).res = Except.error SdkError.noBackupFound ∧
      (srvGetHash w.remote w.appId u = none ∨
        srvGetHash w.remote w.appId u = some "")) ∨
    ((restoreData w u k).res = Except.error SdkError.invalidRecoveryKey ∧
      ∃ h2 blob, srvGetHash w.remote w.appId u = some h2 ∧
        srvRestore w.remote h2 = some (RestoreResp.mk (some blob) none) ∧
        decryptData blob k = none) ∨
    (restoreData w u k).res = Except.error SdkError.networkError := by
  simp only [restoreData]
  cases hok1 : (takeSched w.sched).1 with
  | false => exact Or.inr (Or.inr (Or.inr rfl))
  | true =>
    cases hh : srvGetHash w.remote w.appId u with
    | none => exact Or.inr (Or.inl ⟨rfl, Or.inl rfl⟩)
    | some h2 =>
      dsimp only
      by_cases hhe : h2 = ""
      · subst hhe
        exact Or.inr (Or.inl ⟨rfl, Or.inr rfl⟩)
      · rw [if_neg hhe]
        cases hok2 : (takeSched (takeSched w.sched).2).1 with
        | false => exact Or.inr (Or.inr (Or.inr rfl))
        | true =>
          dsimp only [srvRestore]
          cases hf : w.remote.storage.find? (fun e => e.1 == h2) with
          | none => exact Or.inr (Or.inr (Or.inr rfl))
          | some e =>
            simp only [Option.map_some']
            dsimp only [extractBlob]
            cases hd : decryptData e.2 k with
            | none =>
              exact Or.inr (Or.inr (Or.inl ⟨rfl, h2, e.2, rfl,
                by simp [srvRestore, hf], hd⟩))
            | some d => exact Or.inl ⟨d, rfl⟩

/-- Claim C8: a successful `restoreData(u, R)` writes (or overwrites) the
local record for `u` with the supplied recovery key, the pointer fetched
from the directory, and an absent password verifier — and with that
verifier absent, `login(u, p)` returns `false` for every password `p`
until the application sets a new one. -/
theorem restoreData_writes_record_no_password (w : World) (u R : String)
    (d : JValue) (w2 : World) (evs : List Event)
    (h : restoreData w u R = Out.mk (Except.ok d) w2 evs) :
    (∃ h2, srvGetHash w.remote w.appId u = some h2 ∧
      dbGet w2.users u = some (LocalUser.mk u none R h2)) ∧
    ∀ p, (login w2 u p).1 = false := by
  simp only [restoreData] at h
  split at h
  · split at h
    · simp at h
    · rename_i ipfsHash hh
      split at h
      · simp at h
      · split at h
        · split at h
          · simp at h
          · rename_i resp hr
            split at h
            · simp at h
            · rename_i blob hb
              split at h
              · simp at h
              · rename_i data hd
                simp only [Out.mk.injEq] at h
                obtain ⟨hres, hw, hevs⟩ := h
                subst hw
                have hdb : dbGet
                    (dbPut w.users (LocalUser.mk u none R ipfsHash)) u =
                    some (LocalUser.mk u none R ipfsHash) :=
                  dbGet_dbPut_self w.users (LocalUser.mk u none R ipfsHash)
                refine ⟨⟨ipfsHash, hh, hdb⟩, ?_⟩
                intro p
                unfold login
                dsimp only
                rw [hdb]
                simp
        · simp at h
  · simp at h

/-- Claim C1: when `signUp(u, p)` succeeds and returns the recovery key
`R`, a subsequent `restoreData(u, R)` against the directory and storage
state left by that sign-up returns the initial payload committed at
sign-up. -/
theorem signUp_then_restore_roundtrip (w : World) (u p R : String)
    (w1 : World) (evs : List Event)
    (h : signUp w u p = Out.mk (Except.ok R) w1 evs) :
    (restoreData { w1 with sched := [] } u R).res = Except.ok initialData := by
  simp only [signUp] at h
  split at h
  · simp at h
  · split at h
    · simp at h
    · split at h
      · split at h
        · split at h
          · simp at h
          · split at h
            · simp only [Out.mk.injEq, Except.ok.injEq] at h
              obtain ⟨hres, hw, hevs⟩ := h
              subst hres
              subst hw
              simp [restoreData, takeSched, srvGetHash, srvSetHash,
                srvBackup, srvRestore, extractBlob, List.find?,
                ipfsHashOf_ne_empty, decryptData_encryptData]
            · simp at h
        · simp at h
      · simp at h

/-- The sign-up/restore round-trip exercised end to end on a fresh
state. -/
theorem signUp_then_restore_roundtrip_witness :
    (restoreData { (signUp w0Empty "alice" "pw1").world with sched := [] }
        "alice" "rk0").res = Except.ok initialData :=
  signUp_then_restore_roundtrip w0Empty "alice" "pw1" "rk0"
    (signUp w0Empty "alice" "pw1").world
    (signUp w0Empty "alice" "pw1").evs rfl

/-- The passwordless-record property exercised on a concrete restore:
after restoring `"alice"` no password logs her in. -/
theorem restoreData_writes_record_no_password_witness :
    (login (restoreData wBackedUp "alice" "key1").world "alice" "pw9").1 =
      false :=
  (restoreData_writes_record_no_password wBackedUp "alice" "key1"
    samplePayload (restoreData wBackedUp "alice" "key1").world
    (restoreData wBackedUp "alice" "key1").evs rfl).2 "pw9"

end PortID
